import Mathlib

/-!
Verification of the pynvme core driver (src/driver.c).

This file gives a shallow embedding of the driver's core data paths:
the CRC32C checksum oracle, the write-buffer fill and read-buffer verify
routines, the command-log completion trampoline, and the I/O worker's
argument normalization, LBA generation, completion error handling and
polling loop.  C `uint64_t`/`uint32_t` arithmetic is modelled on `Nat`
with explicit reductions modulo `2^64` / `2^32` where the C code can
overflow.  The external CRC32C primitive (`spdk_crc32c_update`) is an
opaque parameter `crc32c : Block → Nat` of the development; the driver
code never looks inside it.
-/

namespace Pynvme

/-- `2^64`, the modulus of C `uint64_t` arithmetic. -/
def U64 : Nat := 2 ^ 64

/-- `2^32`, the modulus of C `uint32_t` arithmetic. -/
def U32 : Nat := 2 ^ 32

/-- A data block is its list of bytes (each byte is `< 256` in a real run). -/
abbrev Block := List Nat

/-- Little-endian byte image of a value in `n` bytes: how a C integer
store of width `8*n` bits lays the value out in memory. -/
def leBytes : Nat → Nat → List Nat
  | 0, _ => []
  | n + 1, v => v % 256 :: leBytes n (v / 256)

/-- Read a little-endian value back from a byte list. -/
def readLE : List Nat → Nat
  | [] => 0
  | b :: bs => b + 256 * readLE bs

/-- Overwrite the bytes of `b` starting at offset `off` with `bs`. -/
def writeBytes (b : List Nat) (off : Nat) (bs : List Nat) : List Nat :=
  b.take off ++ bs ++ b.drop (off + bs.length)

/-- The C store `*(uint64_t*)(p + off) = v`. -/
def writeU64 (b : Block) (off : Nat) (v : Nat) : Block :=
  writeBytes b off (leBytes 8 v)

/-- The C load `*(uint64_t*)(p + off)`. -/
def readU64 (b : Block) (off : Nat) : Nat :=
  readLE ((b.drop off).take 8)

theorem leBytes_length (n v : Nat) : (leBytes n v).length = n := by
  induction n generalizing v with
  | zero => rfl
  | succ n ih => simp [leBytes, ih]

theorem mod_mul_256 (v M : Nat) (hM : 0 < M) :
    v % (256 * M) = v % 256 + 256 * (v / 256 % M) := by
  have hq := Nat.div_add_mod v 256
  have ha := Nat.div_add_mod (v / 256) M
  have hblt : v / 256 % M < M := Nat.mod_lt _ hM
  have hrlt : v % 256 < 256 := Nat.mod_lt _ (by norm_num)
  have hv : 256 * M * (v / 256 / M) + (256 * (v / 256 % M) + v % 256) = v := by
    have h1 : 256 * M * (v / 256 / M) + (256 * (v / 256 % M) + v % 256)
        = 256 * (M * (v / 256 / M) + v / 256 % M) + v % 256 := by ring
    rw [h1, ha, hq]
  conv_lhs => rw [← hv]
  rw [Nat.mul_add_mod, Nat.mod_eq_of_lt (by omega)]
  omega

theorem readLE_leBytes (n v : Nat) : readLE (leBytes n v) = v % 2 ^ (8 * n) := by
  induction n generalizing v with
  | zero => simp [leBytes, readLE, Nat.mod_one]
  | succ n ih =>
    have h2 : (2 : Nat) ^ (8 * (n + 1)) = 256 * 2 ^ (8 * n) := by
      rw [Nat.mul_succ, pow_add]; ring
    rw [h2, mod_mul_256 v _ (pow_pos (by norm_num) _)]
    simp [leBytes, readLE, ih]

theorem writeBytes_length (b bs : List Nat) (off : Nat)
    (h : off + bs.length ≤ b.length) :
    (writeBytes b off bs).length = b.length := by
  simp only [writeBytes, List.length_append, List.length_take, List.length_drop]
  omega

theorem getElem?_drop_add (l : List Nat) (n m : Nat) :
    (l.drop n)[m]? = l[n + m]? := by
  induction l generalizing n with
  | nil => simp
  | cons a t ih =>
    cases n with
    | zero => simp
    | succ k =>
      simp only [List.drop_succ_cons, Nat.succ_add, List.getElem?_cons_succ]
      exact ih k

/-- Bytes strictly before the written window are untouched. -/
theorem writeBytes_getD_lt (b bs : List Nat) (off j d : Nat)
    (hj : j < off) (hoff : off ≤ b.length) :
    (writeBytes b off bs).getD j d = b.getD j d := by
  have hlen : j < (b.take off).length := by
    simp [List.length_take]; omega
  simp only [writeBytes, List.getD_eq_getElem?_getD, List.append_assoc]
  rw [List.getElem?_append_left hlen, List.getElem?_take_of_lt hj]

/-- Bytes inside the written window read back from `bs`. -/
theorem writeBytes_getD_mid (b bs : List Nat) (off j d : Nat)
    (h1 : off ≤ j) (h2 : j < off + bs.length) (hoff : off ≤ b.length) :
    (writeBytes b off bs).getD j d = bs.getD (j - off) d := by
  have htk : (b.take off).length = off := by simp [List.length_take]; omega
  simp only [writeBytes, List.getD_eq_getElem?_getD, List.append_assoc]
  rw [List.getElem?_append_right (by omega : (b.take off).length ≤ j), htk,
    List.getElem?_append_left (by omega : j - off < bs.length)]

/-- Bytes strictly after the written window are untouched. -/
theorem writeBytes_getD_ge (b bs : List Nat) (off j d : Nat)
    (hj : off + bs.length ≤ j) (hoff : off + bs.length ≤ b.length) :
    (writeBytes b off bs).getD j d = b.getD j d := by
  have htk : (b.take off).length = off := by simp [List.length_take]; omega
  simp only [writeBytes, List.getD_eq_getElem?_getD, List.append_assoc]
  rw [List.getElem?_append_right (by omega : (b.take off).length ≤ j), htk,
    List.getElem?_append_right (by omega : bs.length ≤ j - off),
    getElem?_drop_add]
  have heq : off + bs.length + (j - off - bs.length) = j := by omega
  rw [heq]

theorem readLE_take_drop_succ (l : List Nat) (off n : Nat) :
    readLE ((l.drop off).take (n + 1))
      = l.getD off 0 + 256 * readLE ((l.drop (off + 1)).take n) := by
  cases h : l.drop off with
  | nil =>
    have h1 : l.length ≤ off := by
      by_contra hc
      have := List.drop_eq_getElem_cons (l := l) (n := off) (by omega)
      rw [h] at this
      exact List.noConfusion this
    have h2 : l.drop (off + 1) = [] := List.drop_of_length_le (by omega)
    have h3 : l[off]? = none := List.getElem?_eq_none (by omega)
    simp [h, h2, h3, readLE]
  | cons a t =>
    have ha : l.getD off 0 = a := by
      have h0 : (l.drop off)[0]? = l[off + 0]? := getElem?_drop_add l off 0
      rw [h] at h0
      simp only [List.getElem?_cons_zero, Nat.add_zero] at h0
      rw [List.getD_eq_getElem?_getD, ← h0]
      rfl
    have ht : l.drop (off + 1) = t := by
      have h5 := List.tail_drop l off
      rw [h] at h5
      simpa using h5.symm
    rw [ht, ha]
    rfl

/-- A 64-bit load spelled out on the eight underlying bytes. -/
theorem readU64_eq_getD (b : Block) (off : Nat) :
    readU64 b off
      = b.getD off 0 + 256 * (b.getD (off + 1) 0 + 256 * (b.getD (off + 2) 0
        + 256 * (b.getD (off + 3) 0 + 256 * (b.getD (off + 4) 0
        + 256 * (b.getD (off + 5) 0 + 256 * (b.getD (off + 6) 0
        + 256 * b.getD (off + 7) 0)))))) := by
  unfold readU64
  rw [show (8 : Nat) = 7 + 1 from rfl, readLE_take_drop_succ,
    readLE_take_drop_succ, readLE_take_drop_succ, readLE_take_drop_succ,
    readLE_take_drop_succ, readLE_take_drop_succ, readLE_take_drop_succ,
    readLE_take_drop_succ]
  simp [readLE]

theorem leBytes_eight (v : Nat) :
    leBytes 8 v
      = [v % 256, v / 256 % 256, v / 256 / 256 % 256, v / 256 / 256 / 256 % 256,
         v / 256 / 256 / 256 / 256 % 256, v / 256 / 256 / 256 / 256 / 256 % 256,
         v / 256 / 256 / 256 / 256 / 256 / 256 % 256,
         v / 256 / 256 / 256 / 256 / 256 / 256 / 256 % 256] := rfl

/-- Reading exactly the window just written returns the stored value
(truncated to 64 bits, as the eight bytes can hold no more). -/
theorem readU64_writeU64_self (b : Block) (off v : Nat)
    (hoff : off ≤ b.length) :
    readU64 (writeU64 b off v) off = v % U64 := by
  have hlb : (leBytes 8 v).length = 8 := leBytes_length 8 v
  have hmid : ∀ k, k < 8 →
      (writeU64 b off v).getD (off + k) 0 = (leBytes 8 v).getD k 0 := by
    intro k hk
    unfold writeU64
    rw [writeBytes_getD_mid b _ off (off + k) 0 (by omega) (by omega) hoff]
    congr 1
    omega
  have hm0 : (writeU64 b off v).getD off 0 = (leBytes 8 v).getD 0 0 := by
    simpa using hmid 0 (by norm_num)
  rw [readU64_eq_getD, hm0,
    hmid 1 (by norm_num), hmid 2 (by norm_num),
    hmid 3 (by norm_num), hmid 4 (by norm_num), hmid 5 (by norm_num),
    hmid 6 (by norm_num), hmid 7 (by norm_num), leBytes_eight]
  have h8 := readLE_leBytes 8 v
  rw [leBytes_eight] at h8
  simp only [readLE, List.getD_cons_zero, List.getD_cons_succ] at h8 ⊢
  rw [show U64 = 2 ^ (8 * 8) from by norm_num [U64]]
  omega

/-- Reading a window that ends before a later write starts is unchanged. -/
theorem readU64_writeU64_before (b : Block) (off1 off2 v : Nat)
    (h : off1 + 8 ≤ off2) (hoff : off2 ≤ b.length) :
    readU64 (writeU64 b off2 v) off1 = readU64 b off1 := by
  have hlt : ∀ k, k < 8 →
      (writeU64 b off2 v).getD (off1 + k) 0 = b.getD (off1 + k) 0 := by
    intro k hk
    exact writeBytes_getD_lt b _ off2 (off1 + k) 0 (by omega) hoff
  have hl0 : (writeU64 b off2 v).getD off1 0 = b.getD off1 0 := by
    simpa using hlt 0 (by norm_num)
  rw [readU64_eq_getD, readU64_eq_getD, hl0,
    hlt 1 (by norm_num), hlt 2 (by norm_num),
    hlt 3 (by norm_num), hlt 4 (by norm_num), hlt 5 (by norm_num),
    hlt 6 (by norm_num), hlt 7 (by norm_num)]

/-!
## Checksum oracle and buffer module (driver.c lines 109-239)

The oracle `g_driver_csum_table_ptr` is modelled as a total map from LBA
to the 32-bit slot value; the shared token counter `g_driver_io_token_ptr`
as a `Nat` kept below `2^64` by the fetch-add.  `spdk_crc32c_update` is an
external primitive, taken as a parameter `crc32c : Block → Nat` (its C
return type is `uint32_t`, so theorems that need it assume the value is
`< 2^32`).
-/

/-- `buffer_calc_csum` (driver.c:154-164): CRC32C of the block, with the
sentinel values clamped away: `0 → 1` and then `0xffffffff → 0xfffffffe`. -/
def buffer_calc_csum (crc32c : Block → Nat) (blk : Block) : Nat :=
  let crc := crc32c blk
  let crc := if crc = 0 then 1 else crc
  let crc := if crc = 0xffffffff then 0xfffffffe else crc
  crc

/-- One iteration of the `buffer_fill_data` loop body (driver.c:179-192):
store the (64-bit) block LBA at offset 0 and the (64-bit) token at the
last 64-bit word, `ptr[lba_size/8 - 1]`, i.e. byte offset
`8*(lba_size/8 - 1)`. -/
def fill_block (blk : Block) (lba tok lba_size : Nat) : Block :=
  writeU64 (writeU64 blk 0 lba) (8 * (lba_size / 8 - 1)) tok

/-- Observable effects of the driver on shared state, used to state
ordering (happens-before) facts. -/
inductive IoEvent where
  | blockWrite (lba : Nat) (blk : Block)
  | oracleWrite (lba : Nat) (v : Nat)
  | submit (opc : Nat) (lba : Nat) (lbaCount : Nat)
deriving DecidableEq, Repr

/-- The loop of `buffer_fill_data` (driver.c:179-192), walking the blocks
of the buffer: fill each block with its own LBA and `token + i`, and store
the clamped checksum of the filled block into the oracle slot of that LBA.
Returns the filled buffer, the updated oracle and the emitted store
events in program order. -/
def buffer_fill_go (crc32c : Block → Nat) (oracle : Nat → Nat) :
    List Block → Nat → Nat → Nat → List Block × (Nat → Nat) × List IoEvent
  | [], _, _, _ => ([], oracle, [])
  | blk :: rest, lba, tok, lba_size =>
    let b := fill_block blk lba tok lba_size
    let csum := buffer_calc_csum crc32c b
    let oracle2 : Nat → Nat := fun l => if l = lba then csum else oracle l
    let r := buffer_fill_go crc32c oracle2 rest (lba + 1) (tok + 1) lba_size
    (b :: r.1, r.2.1,
      IoEvent.blockWrite lba b :: IoEvent.oracleWrite lba csum :: r.2.2)

/-- Result of `buffer_fill_data`: buffer and oracle after the stores, the
token base returned by the atomic fetch-add, the new counter value, and
the store events. -/
structure FillResult where
  buf : List Block
  oracle : Nat → Nat
  token_base : Nat
  ctr : Nat
  trace : List IoEvent

/-- `buffer_fill_data` (driver.c:166-193): reserve `lba_count` tokens with
one `__ATOMIC_SEQ_CST` fetch-add on the shared 64-bit counter (`ctr`,
wrapping at `2^64`), then fill every block and its oracle slot.  The C
`lba_count` is the length of `buf`. -/
def buffer_fill_data (crc32c : Block → Nat) (buf : List Block) (lba : Nat)
    (lba_size : Nat) (oracle : Nat → Nat) (ctr : Nat) : FillResult :=
  let token := ctr
  let r := buffer_fill_go crc32c oracle buf lba token lba_size
  { buf := r.1, oracle := r.2.1, token_base := token,
    ctr := (ctr + buf.length) % U64, trace := r.2.2 }

/-- `buffer_verify_data` (driver.c:195-232), walking the `lba_count`
blocks of the read buffer in order.  Return codes follow the C function:
`0` pass, `-1` uncorrectable sentinel, `-2` stored-LBA mismatch, `-3`
CRC mismatch.  An oracle slot of `0` (unmapped) skips the block. -/
def buffer_verify_data (crc32c : Block → Nat) (oracle : Nat → Nat) :
    List Block → Nat → Int
  | [], _ => 0
  | blk :: rest, lba =>
    let expected_crc := oracle lba
    if expected_crc = 0 then
      buffer_verify_data crc32c oracle rest (lba + 1)
    else if expected_crc = 0xffffffff then
      -1
    else if readU64 blk 0 ≠ lba then
      -2
    else if buffer_calc_csum crc32c blk ≠ expected_crc then
      -3
    else
      buffer_verify_data crc32c oracle rest (lba + 1)

/-- Specification-side predicate: one block passes verification, i.e.
its oracle slot is the unmapped sentinel, or it is a real checksum that
matches the block's stored LBA and recomputed clamped CRC. -/
def block_ok (crc32c : Block → Nat) (oracle : Nat → Nat) (blk : Block)
    (lba : Nat) : Prop :=
  oracle lba = 0 ∨
    (oracle lba ≠ 0xffffffff ∧ readU64 blk 0 = lba ∧
      buffer_calc_csum crc32c blk = oracle lba)

instance (crc32c : Block → Nat) (oracle : Nat → Nat) (blk : Block)
    (lba : Nat) : Decidable (block_ok crc32c oracle blk lba) := by
  unfold block_ok
  infer_instance

/-!
## Command log (driver.c lines 242-411)
-/

/-- The NVMe submission-queue entry fields the driver fills in
(`struct spdk_nvme_cmd`; the rest stays zero from the `memset`). -/
structure NvmeCmd where
  opc : Nat
  nsid : Nat
  cdw10 : Nat
  cdw11 : Nat
  cdw12 : Nat
  cdw13 : Nat
  cdw14 : Nat
  cdw15 : Nat
deriving DecidableEq, Repr

/-- The status field of an NVMe completion (`struct spdk_nvme_status`):
phase bit, status code, status code type, reserved, more, do-not-retry.
The raw 16-bit image is `p | sc<<1 | sct<<9 | rsvd2<<12 | m<<14 | dnr<<15`. -/
structure NvmeStatusField where
  p : Nat
  sc : Nat
  sct : Nat
  rsvd2 : Nat
  m : Nat
  dnr : Nat
deriving DecidableEq, Repr

/-- The raw 16-bit value read by `*(unsigned short*)(&cpl->status)`
(little-endian bitfield layout: `p` at bit 0, `sc` at bits 1-8, `sct` at
bits 9-11, `rsvd2` at bits 12-13, `m` at bit 14, `dnr` at bit 15). -/
def statusRaw (s : NvmeStatusField) : Nat :=
  s.p + 2 * s.sc + 512 * s.sct + 4096 * s.rsvd2 + 16384 * s.m
    + 32768 * s.dnr

/-- `spdk_nvme_cpl_is_error` on the modelled completion: NVMe status
nonzero, i.e. `sct ≠ 0 ∨ sc ≠ 0` (per the spec: "Completion errors
(NVMe status nonzero)"). -/
def nvme_cpl_is_error (s : NvmeStatusField) : Bool :=
  s.sct ≠ 0 ∨ s.sc ≠ 0

/-- An NVMe completion (`struct spdk_nvme_cpl`): dword 0, reserved
dword 1, dword 2 (`sqhd`/`sqid`, reused by the driver for latency),
command id, and the status field. -/
structure NvmeCpl where
  cdw0 : Nat
  cdw1 : Nat
  dw2 : Nat
  cid : Nat
  status : NvmeStatusField
deriving DecidableEq, Repr

/-- A command-log ring entry (`struct cmd_log_entry_t`): timestamps in
microseconds, the command and completion images, the verification context
`(buf, lba, lba_count, lba_size)` (`buf = none` models a NULL pointer; the
list holds the `lba_count` blocks it points to), and whether a user
callback was registered. -/
structure CmdLogEntry where
  time_cmd : Nat
  cmd : NvmeCmd
  time_cpl : Nat
  cpl : NvmeCpl
  buf : Option (List Block)
  lba : Nat
  lba_count : Nat
  lba_size : Nat
  has_cb : Bool
deriving Repr

/-- `cmd_log_add_cmd` (driver.c:333-368): record the verification
context, callback, command image and submission timestamp into the tail
entry.  The completion image starts out zeroed. -/
def cmd_log_add_cmd (now : Nat) (buf : Option (List Block)) (lba : Nat)
    (lba_count : Nat) (lba_size : Nat) (cmd : NvmeCmd) (has_cb : Bool) :
    CmdLogEntry :=
  { time_cmd := now, cmd := cmd, time_cpl := 0,
    cpl := { cdw0 := 0, cdw1 := 0, dw2 := 0, cid := 0,
             status := { p := 0, sc := 0, sct := 0, rsvd2 := 0, m := 0,
                         dnr := 0 } },
    buf := buf, lba := lba, lba_count := lba_count, lba_size := lba_size,
    has_cb := has_cb }

/-- `timeval_to_us` applied to the `timersub` difference of the two
timestamps: the C function returns `unsigned int`, so the microsecond
latency is truncated to 32 bits. -/
def cmd_latency_us (time_cmd time_cpl : Nat) : Nat :=
  (time_cpl - time_cmd) % U32

/-- `cmd_log_add_cpl_cb` (driver.c:370-411), the completion trampoline:
stamp the completion time, copy in the driver's completion, overwrite its
dword 2 with the measured latency, run read-data verification when the
logged command was a Read (opcode 2) and a buffer was attached —
synthesizing SCT=0x02/SC=0x81 on any verification failure — and finally
hand the stored completion to the user callback (second component;
`none` when no callback was registered). -/
def cmd_log_add_cpl_cb (crc32c : Block → Nat) (oracle : Nat → Nat)
    (entry : CmdLogEntry) (cpl : NvmeCpl) (now : Nat) :
    CmdLogEntry × Option NvmeCpl :=
  let e1 : CmdLogEntry := { entry with time_cpl := now, cpl := cpl }
  let e2 : CmdLogEntry :=
    { e1 with cpl := { e1.cpl with dw2 := cmd_latency_us e1.time_cmd now } }
  let e3 : CmdLogEntry :=
    if e2.cmd.opc = 2 then
      match e2.buf with
      | some blocks =>
        if buffer_verify_data crc32c oracle blocks e2.lba ≠ 0 then
          { e2 with cpl :=
              { e2.cpl with status :=
                  { e2.cpl.status with sct := 0x02, sc := 0x81 } } }
        else e2
      | none => e2
    else e2
  (e3, if e3.has_cb then some e3.cpl else none)

/-!
## NVMe facade (driver.c lines 634-688 and 781-832)
-/

/-- Outcome of `ns_cmd_read_write`: the constructed command, the buffer /
oracle / token-counter state as of the submission to the external driver,
the log entry registered as the completion context, and the event trace
(stores in program order followed by the submission). -/
structure NsCmdResult where
  cmd : NvmeCmd
  buf : List Block
  oracle : Nat → Nat
  ctr : Nat
  log_entry : CmdLogEntry
  trace : List IoEvent

/-- `ns_cmd_read_write` (driver.c:781-832): build the command (opcode 2
for read, 1 for write; CDW10/11 the LBA split into 32-bit halves; CDW12
`(lba_count-1) | (io_flags<<16)` truncated to 32 bits), fill the write
buffer and oracle via `buffer_fill_data` when writing, record the log
entry, then submit.  `buf` models the `lba_count` blocks of the DMA
buffer; the namespace's sector size is `lba_size` (asserted 512 in C). -/
def ns_cmd_read_write (crc32c : Block → Nat) (is_read : Bool)
    (buf : List Block) (lba : Nat) (lba_size : Nat) (io_flags : Nat)
    (oracle : Nat → Nat) (ctr : Nat) (now : Nat) (has_cb : Bool) :
    NsCmdResult :=
  let lba_count := buf.length
  let cmd : NvmeCmd :=
    { opc := if is_read then 2 else 1, nsid := 1,
      cdw10 := lba % U32, cdw11 := lba / U32 % U32,
      cdw12 := (lba_count - 1 + io_flags * 2 ^ 16) % U32,
      cdw13 := 0, cdw14 := 0, cdw15 := 0 }
  let fr : FillResult :=
    if is_read then
      { buf := buf, oracle := oracle, token_base := ctr, ctr := ctr,
        trace := [] }
    else
      buffer_fill_data crc32c buf lba lba_size oracle ctr
  let log_entry :=
    cmd_log_add_cmd now (some fr.buf) lba lba_count lba_size cmd has_cb
  { cmd := cmd, buf := fr.buf, oracle := fr.oracle, ctr := fr.ctr,
    log_entry := log_entry,
    trace := fr.trace ++ [IoEvent.submit cmd.opc lba lba_count] }

/-- `nvme_send_cmd_raw` (driver.c:634-688) records the command in the log
with a NULL verification buffer and zeroed lba/lba_count/lba_size, so the
completion trampoline never verifies its data. -/
def nvme_send_cmd_raw_entry (now : Nat) (opcode nsid : Nat)
    (cdw10 cdw11 cdw12 cdw13 cdw14 cdw15 : Nat) (has_cb : Bool) :
    CmdLogEntry :=
  cmd_log_add_cmd now none 0 0 0
    { opc := opcode, nsid := nsid, cdw10 := cdw10, cdw11 := cdw11,
      cdw12 := cdw12, cdw13 := cdw13, cdw14 := cdw14, cdw15 := cdw15 }
    has_cb

/-!
## I/O worker (driver.c lines 851-1297)
-/

/-- `ALIGN_UP` (driver.c:881). -/
def align_up (n a : Nat) : Nat :=
  if n % a ≠ 0 then n + a - n % a else n

/-- `ALIGN_DOWN` (driver.c:882). -/
def align_down (n a : Nat) : Nat :=
  n - n % a

/-- `struct ioworker_args` (caller-provided workload description).  The
two optional sampling arrays are omitted: no claim touches their
contents, only the numeric fields. -/
structure IoworkerArgs where
  lba_start : Nat
  lba_size : Nat
  lba_align : Nat
  lba_random : Bool
  region_start : Nat
  region_end : Nat
  read_percentage : Nat
  iops : Nat
  io_count : Nat
  seconds : Nat
  qdepth : Nat
  wid : Nat
deriving DecidableEq, Repr

/-- `CMD_LOG_DEPTH` (driver.c:248). -/
def CMD_LOG_DEPTH : Nat := 2048

/-- The argument checks of `ioworker_entry` (the `assert`s at
driver.c:1185-1193; `DEBUG` is statically asserted at driver.c:458, so
the asserts are live and act as validation). -/
def ioworker_args_valid (args : IoworkerArgs) : Prop :=
  args.read_percentage ≤ 100 ∧
  (args.io_count ≠ 0 ∨ args.seconds ≠ 0) ∧
  args.seconds < 24 * 3600 ∧
  args.lba_size ≠ 0 ∧
  args.region_start < args.region_end ∧
  args.qdepth ≤ CMD_LOG_DEPTH / 2

instance (args : IoworkerArgs) : Decidable (ioworker_args_valid args) := by
  unfold ioworker_args_valid
  infer_instance

/-- The argument checks of `ioworker_entry` other than the bound on
`seconds` (used to isolate what the `assert(seconds < 24*3600)` adds). -/
def ioworker_args_valid_except_seconds (args : IoworkerArgs) : Prop :=
  args.read_percentage ≤ 100 ∧
  (args.io_count ≠ 0 ∨ args.seconds ≠ 0) ∧
  args.lba_size ≠ 0 ∧
  args.region_start < args.region_end ∧
  args.qdepth ≤ CMD_LOG_DEPTH / 2

instance (args : IoworkerArgs) :
    Decidable (ioworker_args_valid_except_seconds args) := by
  unfold ioworker_args_valid_except_seconds
  infer_instance

/-- The C uint64 subtraction `a - b`, for `a < 2^64`. -/
def u64sub (a b : Nat) : Nat :=
  (a + U64 - b % U64) % U64

/-- The "revise args" block of `ioworker_entry` (driver.c:1204-1230),
which rewrites the caller's `args` structure in place: `io_count = 0`
becomes `(unsigned long)-1`; `seconds = 0` (or beyond 24h) becomes
86400; `region_end` is clamped to the namespace size, then reduced by
`lba_size + 1` and aligned down; `region_start` is aligned up;
`lba_start` is raised to `region_start`; `qdepth` is capped by the
(revised) `io_count`. -/
def ioworker_revise_args (args : IoworkerArgs) (nsze : Nat) :
    IoworkerArgs :=
  let io_count := if args.io_count = 0 then U64 - 1 else args.io_count
  let seconds :=
    if args.seconds = 0 ∨ args.seconds > 24 * 3600 then 24 * 3600
    else args.seconds
  let region_end0 := if args.region_end > nsze then nsze else args.region_end
  let region_start := align_up args.region_start args.lba_align
  let region_end :=
    align_down (u64sub region_end0 (args.lba_size + 1)) args.lba_align
  let lba_start :=
    if args.lba_start < region_start then region_start else args.lba_start
  let qdepth := if io_count < args.qdepth then io_count else args.qdepth
  { args with
    io_count := io_count
    seconds := seconds
    region_start := region_start
    region_end := region_end
    lba_start := lba_start
    qdepth := qdepth }

/-- The value of the caller's `args` structure when `ioworker_entry`
returns: unchanged if the transfer-size check bails out with `-2`
(driver.c:1196-1202, before the revise block), otherwise revised in
place by driver.c:1204-1230 and only read afterwards. -/
def ioworker_entry_final_args (args : IoworkerArgs)
    (nsze sector_size max_xfer_size : Nat) : IoworkerArgs :=
  if args.lba_size * sector_size > max_xfer_size then args
  else ioworker_revise_args args nsze

/-- `ioworker_send_one_lba_sequential` (driver.c:1075-1088): advance the
running LBA by `lba_align` (64-bit arithmetic) and wrap to `region_start`
once it exceeds the (revised) `region_end`. -/
def ioworker_send_one_lba_sequential (args : IoworkerArgs)
    (sequential_lba : Nat) : Nat :=
  let ret := (sequential_lba + args.lba_align) % U64
  if ret > args.region_end then args.region_start else ret

/-- `ioworker_send_one_lba` (driver.c:1095-1111): pick the next LBA —
sequentially (also updating `gctx->sequential_lba` with the pre-alignment
value) or uniformly in `[region_start, region_end)` from the PRNG draw
`rand` — and align it down to `lba_align`.  Returns (emitted LBA, new
`sequential_lba`). -/
def ioworker_send_one_lba (args : IoworkerArgs) (sequential_lba : Nat)
    (rand : Nat) : Nat × Nat :=
  if args.lba_random = false then
    let ret := ioworker_send_one_lba_sequential args sequential_lba
    (align_down ret args.lba_align, ret)
  else
    let ret := rand % (args.region_end - args.region_start)
      + args.region_start
    (align_down ret args.lba_align, sequential_lba)

/-- The sequence of LBAs issued by `n` sequential-mode sends starting
from the worker's `sequential_lba` state (initialized to the revised
`lba_start` at driver.c:1236). -/
def ioworker_seq_lbas (args : IoworkerArgs) :
    Nat → Nat → List Nat
  | 0, _ => []
  | n + 1, s =>
    let r := ioworker_send_one_lba args s 0
    r.1 :: ioworker_seq_lbas args n r.2

/-- The error-relevant worker state touched by the completion callback:
the finish flag (`gctx->flag_finish`) and the first recorded error code
(`rets->error`). -/
structure WorkerErrState where
  flag_finish : Bool
  error : Nat
deriving DecidableEq, Repr

/-- The completion-error branch of `ioworker_one_cb`
(driver.c:1024-1045): when the completion is an error, extract the
11-bit code `((raw_status >> 1) & 0x7ff)`; a code of `0x0281` in a mixed
workload (`read_percentage < 100`) is ignored; any other error sets the
finish flag and is recorded in `rets->error` only if no error was
recorded yet. -/
def ioworker_one_cb_error (read_percentage : Nat) (status : NvmeStatusField)
    (st : WorkerErrState) : WorkerErrState :=
  if nvme_cpl_is_error status then
    let error := statusRaw status / 2 % 2048
    if error = 0x0281 ∧ read_percentage < 100 then
      st
    else
      { flag_finish := true
        error := if st.error = 0 then error else st.error }
  else
    st

/-- What the polling loop of `ioworker_entry` observes in one iteration:
the counters `gctx.io_count_sent` / `gctx.io_count_cplt` and the flag as
read by the `while` condition, and the duration (in milliseconds, from
`ioworker_get_duration`) measured by the watchdog check inside the body.
The external `spdk_nvme_qpair_process_completions` call drives these from
one iteration to the next, so a run of the loop is modelled against the
list of its observations. -/
structure LoopObs where
  duration : Nat
  sent : Nat
  cplt : Nat
  finish : Bool
deriving DecidableEq, Repr

/-- The `while` loop of `ioworker_entry` (driver.c:1270-1284): loop while
`sent ≠ cplt ∨ ¬finish`; inside the body, abort with `-3` when the
duration exceeds `deadline_ms = seconds*1000 + 10*1000`.  Returns `none`
if the supplied observation list runs out while the loop would still be
running. -/
def ioworker_poll_loop (deadline_ms : Nat) : List LoopObs → Option Int
  | [] => none
  | o :: rest =>
    if o.sent = o.cplt ∧ o.finish = true then some 0
    else if o.duration > deadline_ms then some (-3)
    else ioworker_poll_loop deadline_ms rest

/-- The return-code-relevant behaviour of `ioworker_entry`
(driver.c:1152-1297): result code (`none` while still looping), the
value stored into `rets->error` during setup, and the number of I/Os
issued before an early return. -/
structure EntryResult where
  ret : Option Int
  rets_error : Nat
  ios_issued_before_return : Nat
deriving DecidableEq, Repr

/-- `ioworker_entry`'s control path for the status code: the
transfer-size check (driver.c:1196-1202) returns `-2` with
`rets->error = 0x0002` before any I/O is issued; otherwise the args are
revised, the initial batch of `qdepth` I/Os is sent, and the polling
loop (with watchdog deadline `args.seconds*1000 + 10*1000` computed from
the revised `seconds`) decides the final code. -/
def ioworker_entry_model (args : IoworkerArgs)
    (nsze sector_size max_xfer_size : Nat) (obs : List LoopObs) :
    EntryResult :=
  if args.lba_size * sector_size > max_xfer_size then
    { ret := some (-2), rets_error := 0x0002, ios_issued_before_return := 0 }
  else
    let a := ioworker_revise_args args nsze
    { ret := ioworker_poll_loop (a.seconds * 1000 + 10 * 1000) obs
      rets_error := 0
      ios_issued_before_return := a.qdepth }

/-!
## Lemmas about the fill loop
-/

theorem buffer_fill_go_length (crc32c : Block → Nat) :
    ∀ (bs : List Block) (oracle : Nat → Nat) (lba tok lba_size : Nat),
      (buffer_fill_go crc32c oracle bs lba tok lba_size).1.length
        = bs.length := by
  intro bs
  induction bs with
  | nil => intro oracle lba tok lba_size; rfl
  | cons blk rest ih =>
    intro oracle lba tok lba_size
    simp [buffer_fill_go, ih]

theorem buffer_fill_go_getD (crc32c : Block → Nat) :
    ∀ (bs : List Block) (oracle : Nat → Nat) (lba tok lba_size i : Nat),
      i < bs.length →
      (buffer_fill_go crc32c oracle bs lba tok lba_size).1.getD i []
        = fill_block (bs.getD i []) (lba + i) (tok + i) lba_size := by
  intro bs
  induction bs with
  | nil => intro oracle lba tok lba_size i hi; simp at hi
  | cons blk rest ih =>
    intro oracle lba tok lba_size i hi
    cases i with
    | zero => simp [buffer_fill_go]
    | succ k =>
      have hk : k < rest.length := by simpa using hi
      have := ih (fun l =>
          if l = lba then
            buffer_calc_csum crc32c (fill_block blk lba tok lba_size)
          else oracle l)
        (lba + 1) (tok + 1) lba_size k hk
      simp only [buffer_fill_go, List.getD_cons_succ]
      rw [this, show lba + (k + 1) = lba + 1 + k from by omega,
        show tok + (k + 1) = tok + 1 + k from by omega]

theorem buffer_fill_go_oracle_untouched (crc32c : Block → Nat) :
    ∀ (bs : List Block) (oracle : Nat → Nat) (lba tok lba_size l : Nat),
      (∀ i, i < bs.length → lba + i ≠ l) →
      (buffer_fill_go crc32c oracle bs lba tok lba_size).2.1 l
        = oracle l := by
  intro bs
  induction bs with
  | nil => intro oracle lba tok lba_size l _; rfl
  | cons blk rest ih =>
    intro oracle lba tok lba_size l hl
    simp only [buffer_fill_go]
    rw [ih _ (lba + 1) (tok + 1) lba_size l (by
      intro i hi
      have := hl (i + 1) (by simpa using Nat.succ_lt_succ hi)
      omega)]
    have hne : l ≠ lba := by
      have := hl 0 (by simp)
      omega
    simp [hne]

theorem buffer_fill_go_oracle_at (crc32c : Block → Nat) :
    ∀ (bs : List Block) (oracle : Nat → Nat) (lba tok lba_size i : Nat),
      i < bs.length →
      (buffer_fill_go crc32c oracle bs lba tok lba_size).2.1 (lba + i)
        = buffer_calc_csum crc32c
            (fill_block (bs.getD i []) (lba + i) (tok + i) lba_size) := by
  intro bs
  induction bs with
  | nil => intro oracle lba tok lba_size i hi; simp at hi
  | cons blk rest ih =>
    intro oracle lba tok lba_size i hi
    cases i with
    | zero =>
      simp only [buffer_fill_go, Nat.add_zero, List.getD_cons_zero]
      rw [buffer_fill_go_oracle_untouched crc32c rest _ (lba + 1) (tok + 1)
        lba_size lba (by intro j hj; omega)]
      simp
    | succ k =>
      have hk : k < rest.length := by simpa using hi
      simp only [buffer_fill_go, List.getD_cons_succ]
      have := ih (fun l =>
          if l = lba then
            buffer_calc_csum crc32c (fill_block blk lba tok lba_size)
          else oracle l)
        (lba + 1) (tok + 1) lba_size k hk
      rw [show lba + (k + 1) = lba + 1 + k from by omega, this,
        show tok + 1 + k = tok + (k + 1) from by omega]

theorem buffer_fill_go_trace (crc32c : Block → Nat) :
    ∀ (bs : List Block) (oracle : Nat → Nat) (lba tok lba_size : Nat)
      (e : IoEvent),
      e ∈ (buffer_fill_go crc32c oracle bs lba tok lba_size).2.2 →
      (∃ l b, e = IoEvent.blockWrite l b) ∨
        (∃ l v, e = IoEvent.oracleWrite l v) := by
  intro bs
  induction bs with
  | nil => intro oracle lba tok lba_size e he; simp [buffer_fill_go] at he
  | cons blk rest ih =>
    intro oracle lba tok lba_size e he
    simp only [buffer_fill_go, List.mem_cons] at he
    rcases he with h | h | h
    · exact Or.inl ⟨_, _, h⟩
    · exact Or.inr ⟨_, _, h⟩
    · exact ih _ (lba + 1) (tok + 1) lba_size e h

/-!
## Lemmas about read verification
-/

/-- The per-block check chain of `buffer_verify_data`, spelled out. -/
theorem buffer_verify_cons (crc32c : Block → Nat) (oracle : Nat → Nat)
    (blk : Block) (rest : List Block) (lba : Nat) :
    buffer_verify_data crc32c oracle (blk :: rest) lba =
      if oracle lba = 0 then buffer_verify_data crc32c oracle rest (lba + 1)
      else if oracle lba = 0xffffffff then -1
      else if readU64 blk 0 ≠ lba then -2
      else if buffer_calc_csum crc32c blk ≠ oracle lba then -3
      else buffer_verify_data crc32c oracle rest (lba + 1) := rfl

theorem buffer_verify_eq_zero_iff (crc32c : Block → Nat)
    (oracle : Nat → Nat) :
    ∀ (bs : List Block) (lba : Nat),
      buffer_verify_data crc32c oracle bs lba = 0 ↔
        ∀ i, i < bs.length →
          block_ok crc32c oracle (bs.getD i []) (lba + i) := by
  intro bs
  induction bs with
  | nil => intro lba; simp [buffer_verify_data]
  | cons blk rest ih =>
    intro lba
    rw [buffer_verify_cons]
    constructor
    · intro h i hi
      by_cases h0 : oracle lba = 0
      · rw [if_pos h0] at h
        cases i with
        | zero =>
          simp only [List.getD_cons_zero, Nat.add_zero]
          exact Or.inl h0
        | succ k =>
          have hk : k < rest.length := by
            simp only [List.length_cons] at hi; omega
          have hres := (ih (lba + 1)).1 h k hk
          simp only [List.getD_cons_succ]
          rw [show lba + (k + 1) = lba + 1 + k from by omega]
          exact hres
      · rw [if_neg h0] at h
        by_cases hu : oracle lba = 0xffffffff
        · rw [if_pos hu] at h; exact absurd h (by omega)
        · rw [if_neg hu] at h
          by_cases hl : readU64 blk 0 ≠ lba
          · rw [if_pos hl] at h; exact absurd h (by omega)
          · rw [if_neg hl] at h
            push_neg at hl
            by_cases hc : buffer_calc_csum crc32c blk ≠ oracle lba
            · rw [if_pos hc] at h; exact absurd h (by omega)
            · rw [if_neg hc] at h
              push_neg at hc
              cases i with
              | zero =>
                simp only [List.getD_cons_zero, Nat.add_zero]
                exact Or.inr ⟨hu, hl, hc⟩
              | succ k =>
                have hk : k < rest.length := by
                  simp only [List.length_cons] at hi; omega
                have hres := (ih (lba + 1)).1 h k hk
                simp only [List.getD_cons_succ]
                rw [show lba + (k + 1) = lba + 1 + k from by omega]
                exact hres
    · intro h
      have h0 := h 0 (by simp)
      simp only [List.getD_cons_zero, Nat.add_zero] at h0
      have hrest : buffer_verify_data crc32c oracle rest (lba + 1) = 0 := by
        apply (ih (lba + 1)).2
        intro k hk
        have hik := h (k + 1) (by simp only [List.length_cons]; omega)
        simp only [List.getD_cons_succ] at hik
        rw [show lba + 1 + k = lba + (k + 1) from by omega]
        exact hik
      rcases h0 with h0 | ⟨hu, hl, hc⟩
      · rw [if_pos h0]
        exact hrest
      · by_cases h0' : oracle lba = 0
        · rw [if_pos h0']
          exact hrest
        · rw [if_neg h0', if_neg hu, if_neg (not_not_intro hl),
            if_neg (not_not_intro hc)]
          exact hrest

/-- The scan of `buffer_verify_data` is in block order: if every block
before index `i` passes and block `i` fails, the returned code is decided
by block `i`'s first failing check (uncorrectable sentinel, then stored
LBA, then CRC). -/
theorem buffer_verify_first_failure (crc32c : Block → Nat)
    (oracle : Nat → Nat) :
    ∀ (bs : List Block) (lba i : Nat), i < bs.length →
      (∀ j, j < i → block_ok crc32c oracle (bs.getD j []) (lba + j)) →
      ¬ block_ok crc32c oracle (bs.getD i []) (lba + i) →
      buffer_verify_data crc32c oracle bs lba =
        if oracle (lba + i) = 0xffffffff then -1
        else if readU64 (bs.getD i []) 0 ≠ lba + i then -2
        else -3 := by
  intro bs
  induction bs with
  | nil => intro lba i hi _ _; simp at hi
  | cons blk rest ih =>
    intro lba i hi hord hni
    cases i with
    | zero =>
      simp only [List.getD_cons_zero, Nat.add_zero] at hni ⊢
      have hA : ¬ oracle lba = 0 := fun hA => hni (Or.inl hA)
      rw [buffer_verify_cons, if_neg hA]
      by_cases hu : oracle lba = 0xffffffff
      · rw [if_pos hu, if_pos hu]
      · rw [if_neg hu, if_neg hu]
        by_cases hl : readU64 blk 0 ≠ lba
        · rw [if_pos hl, if_pos hl]
        · rw [if_neg hl, if_neg hl]
          push_neg at hl
          have hc : buffer_calc_csum crc32c blk ≠ oracle lba := by
            intro hc
            exact hni (Or.inr ⟨hu, hl, hc⟩)
          rw [if_pos hc]
    | succ k =>
      have hk : k < rest.length := by
        simp only [List.length_cons] at hi; omega
      have hshift : ∀ j, j < k →
          block_ok crc32c oracle (rest.getD j []) (lba + 1 + j) := by
        intro j hj
        have := hord (j + 1) (by omega)
        simp only [List.getD_cons_succ] at this
        rw [show lba + 1 + j = lba + (j + 1) from by omega]
        exact this
      have hni' : ¬ block_ok crc32c oracle (rest.getD k []) (lba + 1 + k) := by
        simp only [List.getD_cons_succ] at hni
        rw [show lba + 1 + k = lba + (k + 1) from by omega]
        exact hni
      have hres := ih (lba + 1) k hk hshift hni'
      have h0 := hord 0 (by omega)
      simp only [List.getD_cons_zero, Nat.add_zero] at h0
      have hgoal :
          buffer_verify_data crc32c oracle (blk :: rest) lba
            = buffer_verify_data crc32c oracle rest (lba + 1) := by
        rcases h0 with h0 | ⟨hu, hl, hc⟩
        · rw [buffer_verify_cons, if_pos h0]
        · by_cases h0' : oracle lba = 0
          · rw [buffer_verify_cons, if_pos h0']
          · rw [buffer_verify_cons, if_neg h0', if_neg hu,
              if_neg (not_not_intro hl), if_neg (not_not_intro hc)]
      rw [hgoal, hres, show lba + 1 + k = lba + (k + 1) from by omega]
      simp only [List.getD_cons_succ]

/-!
## Concrete fixtures used as witnesses and counterexamples
-/

/-- The workload of spec scenario 5: `region=[0,8)`, `lba_align=1`,
`lba_size=1`, sequential, `io_count=20` (and `seconds=0`). -/
def wargs : IoworkerArgs :=
  { lba_start := 0, lba_size := 1, lba_align := 1, lba_random := false,
    region_start := 0, region_end := 8, read_percentage := 0, iops := 0,
    io_count := 20, seconds := 0, qdepth := 2, wid := 0 }

/-- An otherwise-valid workload asking for exactly 86400 seconds. -/
def wargs86400 : IoworkerArgs :=
  { wargs with seconds := 86400, io_count := 10 }

/-!
## Claim theorems
-/

/-- Claim C3 (counterexample): `ioworker_entry` does not keep `args`
read-only — on the scenario-5 workload (with `nsze = 1024`,
`sector_size = 512`, `max_xfer = 128 KiB`) it rewrites `seconds` from 0
to 86400 and `region_end` from 8 to 6 in place, so the structure differs
when the worker returns. -/
theorem ioworker_args_mutated :
    ioworker_entry_final_args wargs 1024 512 131072 ≠ wargs ∧
    (ioworker_entry_final_args wargs 1024 512 131072).seconds = 86400 ∧
    wargs.seconds = 0 ∧
    (ioworker_entry_final_args wargs 1024 512 131072).region_end = 6 ∧
    wargs.region_end = 8 := by
  refine ⟨?_, by decide, by decide, ?_, by decide⟩
  · intro h
    have := congrArg IoworkerArgs.seconds h
    revert this
    decide
  · decide

/-- Claim C3 (amended): during a run `ioworker_entry` normalizes the
caller's `args` in place — exactly the revise block may change
`io_count`, `seconds`, `region_start`, `region_end`, `lba_start` and
`qdepth` — while `lba_size`, `lba_align`, `lba_random`,
`read_percentage`, `iops` and `wid` keep the values they had at
invocation (and on the `-2` early return nothing is touched). -/
theorem ioworker_args_mutation_frame (args : IoworkerArgs)
    (nsze sector_size max_xfer : Nat) :
    (args.lba_size * sector_size > max_xfer →
      ioworker_entry_final_args args nsze sector_size max_xfer = args) ∧
    (¬ args.lba_size * sector_size > max_xfer →
      ioworker_entry_final_args args nsze sector_size max_xfer
          = ioworker_revise_args args nsze ∧
        (ioworker_entry_final_args args nsze sector_size max_xfer).lba_size
          = args.lba_size ∧
        (ioworker_entry_final_args args nsze sector_size max_xfer).lba_align
          = args.lba_align ∧
        (ioworker_entry_final_args args nsze sector_size max_xfer).lba_random
          = args.lba_random ∧
        (ioworker_entry_final_args args nsze sector_size
            max_xfer).read_percentage
          = args.read_percentage ∧
        (ioworker_entry_final_args args nsze sector_size max_xfer).iops
          = args.iops ∧
        (ioworker_entry_final_args args nsze sector_size max_xfer).wid
          = args.wid) := by
  constructor
  · intro h
    simp [ioworker_entry_final_args, h]
  · intro h
    refine ⟨by simp [ioworker_entry_final_args, h], ?_, ?_, ?_, ?_, ?_, ?_⟩ <;>
      simp [ioworker_entry_final_args, ioworker_revise_args, h]

/-- Claim C3 (witness for the amended theorem) on the scenario-5 run. -/
theorem ioworker_args_mutation_frame_witness :
    (ioworker_entry_final_args wargs 1024 512 131072).lba_align
      = wargs.lba_align ∧
    (ioworker_entry_final_args wargs 1024 512 131072).read_percentage
      = wargs.read_percentage :=
  ⟨((ioworker_args_mutation_frame wargs 1024 512 131072).2
      (by decide)).2.2.1,
   ((ioworker_args_mutation_frame wargs 1024 512 131072).2
      (by decide)).2.2.2.2.1⟩

/-- Claim C4 (counterexample): on scenario 5 the worker does not issue
`0,1,2,3,4,5,6,7,0,…`.  The revise block first shrinks `region_end` to
`align_down(8 - 1 - 1, 1) = 6`, and the generator advances before its
first send, so the issued sequence starts at `lba_start + lba_align = 1`
and wraps after 6: `1,2,3,4,5,6,0,…`. -/
theorem seq_lba_expected_sequence_refuted :
    ioworker_seq_lbas (ioworker_revise_args wargs 1024) 20
        ((ioworker_revise_args wargs 1024).lba_start)
      ≠ [0, 1, 2, 3, 4, 5, 6, 7, 0, 1, 2, 3, 4, 5, 6, 7, 0, 1, 2, 3] := by
  decide

/-- Claim C4 (amended): in sequential mode the next LBA is
`(prev + lba_align) mod 2^64`, wrapping to `region_start` when it
exceeds the revised `region_end`, then aligned down to `lba_align`
(the pre-alignment value becomes the new `prev`); under scenario 5 the
first 20 issued LBAs are `1,2,3,4,5,6,0,1,…` — starting at
`lba_start + lba_align` and wrapping after the revised `region_end = 6`,
never issuing 7. -/
theorem seq_lba_rule_and_sequence :
    (∀ (args : IoworkerArgs) (s r : Nat), args.lba_random = false →
      (ioworker_send_one_lba args s r).1
        = align_down
            (if (s + args.lba_align) % U64 > args.region_end then
              args.region_start
            else (s + args.lba_align) % U64) args.lba_align ∧
      (ioworker_send_one_lba args s r).2
        = (if (s + args.lba_align) % U64 > args.region_end then
            args.region_start
          else (s + args.lba_align) % U64)) ∧
    ioworker_seq_lbas (ioworker_revise_args wargs 1024) 20
        ((ioworker_revise_args wargs 1024).lba_start)
      = [1, 2, 3, 4, 5, 6, 0, 1, 2, 3, 4, 5, 6, 0, 1, 2, 3, 4, 5, 6] := by
  constructor
  · intro args s r hrand
    constructor <;>
      simp [ioworker_send_one_lba, ioworker_send_one_lba_sequential, hrand]
  · decide

/-- Claim C4 (witness): the generator's wrap rule applied at the revised
scenario-5 state `prev = 6` yields LBA 0. -/
theorem seq_lba_rule_witness :
    (ioworker_send_one_lba (ioworker_revise_args wargs 1024) 6 0).1 = 0 := by
  have h := seq_lba_rule_and_sequence.1 (ioworker_revise_args wargs 1024) 6 0
    (by decide)
  rw [h.1]
  decide

/-- Claim C5 (confirmed): in the worker's completion handler an NVMe
error yields the 11-bit code `(raw_status >> 1) & 0x7ff` (which is
`sc | sct << 8` for in-range fields); a code of `0x0281` with
`read_percentage < 100` is ignored entirely, and any other combination
sets the finish flag and records the code into `rets.error` exactly when
no earlier error was recorded. -/
theorem worker_cb_error_handling (rp : Nat) (status : NvmeStatusField)
    (st : WorkerErrState) (herr : nvme_cpl_is_error status = true) :
    (status.p < 2 → status.sc < 256 → status.sct < 8 →
      statusRaw status / 2 % 2048 = status.sc + 256 * status.sct) ∧
    (statusRaw status / 2 % 2048 = 0x0281 ∧ rp < 100 →
      ioworker_one_cb_error rp status st = st) ∧
    (¬(statusRaw status / 2 % 2048 = 0x0281 ∧ rp < 100) →
      (ioworker_one_cb_error rp status st).flag_finish = true ∧
      (ioworker_one_cb_error rp status st).error
        = (if st.error = 0 then statusRaw status / 2 % 2048
           else st.error)) := by
  refine ⟨?_, ?_, ?_⟩
  · intro hp hsc hsct
    unfold statusRaw
    omega
  · intro hc
    simp [ioworker_one_cb_error, herr, hc]
  · intro hc
    simp [ioworker_one_cb_error, herr, hc]

/-- Claim C5 (witness): a completion carrying the synthetic status
SCT=0x02/SC=0x81 in a pure-read workload (`read_percentage = 100`) sets
the finish flag and is recorded as the first error. -/
theorem worker_cb_error_handling_witness :
    (ioworker_one_cb_error 100
        { p := 1, sc := 0x81, sct := 0x02, rsvd2 := 0, m := 0, dnr := 0 }
        { flag_finish := false, error := 0 }).flag_finish = true ∧
    (ioworker_one_cb_error 100
        { p := 1, sc := 0x81, sct := 0x02, rsvd2 := 0, m := 0, dnr := 0 }
        { flag_finish := false, error := 0 }).error = 0x0281 := by
  have h := (worker_cb_error_handling 100
    { p := 1, sc := 0x81, sct := 0x02, rsvd2 := 0, m := 0, dnr := 0 }
    { flag_finish := false, error := 0 } (by decide)).2.2 (by decide)
  exact ⟨h.1, by rw [h.2]; decide⟩

/-- Claim C8 (counterexample): `seconds = 86400` does not pass
validation — the `assert(args->seconds < 24*3600)` at driver.c:1188
rejects it even though every other check passes. -/
theorem seconds_86400_rejected :
    ioworker_args_valid_except_seconds wargs86400 ∧
      ¬ ioworker_args_valid wargs86400 := by
  constructor <;> decide

/-- Claim C8 (amended): validation admits exactly the seconds values
strictly below 86400 (on top of the other argument checks), and the
revise block replaces `seconds = 0` by 86400 (the 24-hour cap) while
keeping any other admissible value. -/
theorem seconds_validation_and_clamp (args : IoworkerArgs) (nsze : Nat) :
    (ioworker_args_valid args ↔
      ioworker_args_valid_except_seconds args ∧ args.seconds < 86400) ∧
    (args.seconds = 0 → (ioworker_revise_args args nsze).seconds = 86400) ∧
    (args.seconds ≠ 0 → args.seconds ≤ 86400 →
      (ioworker_revise_args args nsze).seconds = args.seconds) := by
  refine ⟨?_, ?_, ?_⟩
  · unfold ioworker_args_valid ioworker_args_valid_except_seconds
    constructor
    · rintro ⟨h1, h2, h3, h4, h5, h6⟩
      exact ⟨⟨h1, h2, h4, h5, h6⟩, by omega⟩
    · rintro ⟨⟨h1, h2, h4, h5, h6⟩, h3⟩
      exact ⟨h1, h2, by omega, h4, h5, h6⟩
  · intro h0
    simp [ioworker_revise_args, h0]
  · intro h1 h2
    have hcond : ¬(args.seconds = 0 ∨ args.seconds > 24 * 3600) := by omega
    simp only [ioworker_revise_args, if_neg hcond]

/-- Claim C8 (witness): `seconds = 0` on the scenario-5 workload is
replaced by 86400. -/
theorem seconds_validation_and_clamp_witness :
    (ioworker_revise_args wargs 1024).seconds = 86400 :=
  (seconds_validation_and_clamp wargs 1024).2.1 rfl

/-- Claim C9 (confirmed): `ioworker_entry`'s status codes — an I/O size
above the controller's max transfer size returns `-2` with
`rets.error = 0x0002` and zero I/Os issued; the polling loop returns 0
once `sent = cplt` and the finish flag is up; and while the loop
condition still holds, a duration beyond `seconds*1000 + 10000` ms
(computed from the revised `seconds`) aborts with `-3`. -/
theorem entry_status_codes :
    (∀ (args : IoworkerArgs) (nsze sector_size max_xfer : Nat)
        (obs : List LoopObs),
      args.lba_size * sector_size > max_xfer →
      ioworker_entry_model args nsze sector_size max_xfer obs
        = { ret := some (-2), rets_error := 0x0002,
            ios_issued_before_return := 0 }) ∧
    (∀ (bound : Nat) (o : LoopObs) (rest : List LoopObs),
      o.sent = o.cplt → o.finish = true →
      ioworker_poll_loop bound (o :: rest) = some 0) ∧
    (∀ (bound : Nat) (o : LoopObs) (rest : List LoopObs),
      ¬(o.sent = o.cplt ∧ o.finish = true) → o.duration > bound →
      ioworker_poll_loop bound (o :: rest) = some (-3)) ∧
    (∀ (args : IoworkerArgs) (nsze sector_size max_xfer : Nat)
        (obs : List LoopObs),
      ¬ args.lba_size * sector_size > max_xfer →
      (ioworker_entry_model args nsze sector_size max_xfer obs).ret
        = ioworker_poll_loop
            ((ioworker_revise_args args nsze).seconds * 1000 + 10 * 1000)
            obs) := by
  refine ⟨?_, ?_, ?_, ?_⟩
  · intro args nsze sector_size max_xfer obs h
    simp [ioworker_entry_model, h]
  · intro bound o rest h1 h2
    simp [ioworker_poll_loop, h1, h2]
  · intro bound o rest h1 h2
    unfold ioworker_poll_loop
    rw [if_neg h1, if_pos h2]
  · intro args nsze sector_size max_xfer obs h
    simp [ioworker_entry_model, h]

/-- Claim C9 (witness): an oversized transfer (`lba_size = 1024` sectors
of 512 bytes against a 128 KiB limit plus one) returns `-2`/`0x0002`,
and a loop observation that exceeds the deadline while I/Os are
outstanding returns `-3`. -/
theorem entry_status_codes_witness :
    ioworker_entry_model { wargs with lba_size := 1024 } 2048 512 131071 []
      = { ret := some (-2), rets_error := 0x0002,
          ios_issued_before_return := 0 } ∧
    ioworker_poll_loop 10000
        [{ duration := 10001, sent := 2, cplt := 1, finish := false }]
      = some (-3) :=
  ⟨entry_status_codes.1 { wargs with lba_size := 1024 } 2048 512 131071 []
      (by decide),
   entry_status_codes.2.2.1 10000
      { duration := 10001, sent := 2, cplt := 1, finish := false } []
      (by decide) (by decide)⟩

/-- A toy CRC32C stand-in for concrete witnesses (always in range). -/
def wcrc : Block → Nat := fun _ => 5

/-- A concrete oracle: LBA 0 carries checksum 7, all other slots are
unmapped. -/
def woracle : Nat → Nat := fun l => if l = 0 then 7 else 0

/-- A single 16-byte zero block (its stored LBA reads back as 0). -/
def wblocks1 : List Block := [List.replicate 16 0]

/-- A Read command image (opcode 2) for LBA 0, one block. -/
def wreadcmd : NvmeCmd :=
  { opc := 2, nsid := 1, cdw10 := 0, cdw11 := 0, cdw12 := 0, cdw13 := 0,
    cdw14 := 0, cdw15 := 0 }

/-- The log entry of that Read, with the buffer attached. -/
def wentry : CmdLogEntry := cmd_log_add_cmd 100 (some wblocks1) 0 1 16 wreadcmd true

/-- A successful driver completion (phase bit set, status clear). -/
def wcpl : NvmeCpl :=
  { cdw0 := 0, cdw1 := 0, dw2 := 0, cid := 7,
    status := { p := 1, sc := 0, sct := 0, rsvd2 := 0, m := 0, dnr := 0 } }

/-- Claim C1 (confirmed): on completion of a logged Read (opcode 0x02)
with an attached buffer, the trampoline verifies the blocks in order —
verification passes exactly when every block is skipped (unmapped slot)
or matches all three checks, and the code returned on the first failing
block is decided by the uncorrectable sentinel, then the stored LBA at
offset 0, then the recomputed clamped CRC32C — and any failure forges
SCT=0x02/SC=0x81 into the entry's stored completion, which is exactly
what the user callback receives. -/
theorem read_cpl_verify_and_inject (crc32c : Block → Nat)
    (oracle : Nat → Nat) (entry : CmdLogEntry) (cpl : NvmeCpl) (now : Nat)
    (blocks : List Block) (hopc : entry.cmd.opc = 2)
    (hbuf : entry.buf = some blocks) :
    (buffer_verify_data crc32c oracle blocks entry.lba = 0 ↔
      ∀ i, i < blocks.length →
        block_ok crc32c oracle (blocks.getD i []) (entry.lba + i)) ∧
    (∀ i, i < blocks.length →
      (∀ j, j < i →
        block_ok crc32c oracle (blocks.getD j []) (entry.lba + j)) →
      ¬ block_ok crc32c oracle (blocks.getD i []) (entry.lba + i) →
      buffer_verify_data crc32c oracle blocks entry.lba =
        if oracle (entry.lba + i) = 0xffffffff then -1
        else if readU64 (blocks.getD i []) 0 ≠ entry.lba + i then -2
        else -3) ∧
    (buffer_verify_data crc32c oracle blocks entry.lba ≠ 0 →
      (cmd_log_add_cpl_cb crc32c oracle entry cpl now).1.cpl.status.sct
          = 0x02 ∧
        (cmd_log_add_cpl_cb crc32c oracle entry cpl now).1.cpl.status.sc
          = 0x81) ∧
    ((cmd_log_add_cpl_cb crc32c oracle entry cpl now).2
      = if entry.has_cb = true then
          some (cmd_log_add_cpl_cb crc32c oracle entry cpl now).1.cpl
        else none) := by
  refine ⟨buffer_verify_eq_zero_iff crc32c oracle blocks entry.lba,
    buffer_verify_first_failure crc32c oracle blocks entry.lba, ?_, ?_⟩
  · intro hver
    constructor <;> simp [cmd_log_add_cpl_cb, hopc, hbuf, hver]
  · by_cases hver : buffer_verify_data crc32c oracle blocks entry.lba = 0 <;>
      simp [cmd_log_add_cpl_cb, hopc, hbuf, hver]

/-- Claim C1 (witness): a Read of LBA 0 whose oracle slot holds 7 while
the block's recomputed checksum is 5 fails verification, and its stored
completion carries the synthetic SCT=0x02/SC=0x81. -/
theorem read_cpl_verify_and_inject_witness :
    (cmd_log_add_cpl_cb wcrc woracle wentry wcpl 150).1.cpl.status.sct
        = 0x02 ∧
      (cmd_log_add_cpl_cb wcrc woracle wentry wcpl 150).1.cpl.status.sc
        = 0x81 :=
  (read_cpl_verify_and_inject wcrc woracle wentry wcpl 150 wblocks1
    rfl rfl).2.2.1 (by decide)

/-- Claim C10 (confirmed): every command sent through
`nvme_send_cmd_raw` is logged with a NULL verification buffer and zeroed
lba/lba_count/lba_size, so its completion — whatever the opcode, Read
included — skips data verification: the user callback sees the driver's
completion unchanged except for dword 2, which carries the measured
latency. -/
theorem raw_cmd_no_verify (crc32c : Block → Nat) (oracle : Nat → Nat)
    (now0 opcode nsid c10 c11 c12 c13 c14 c15 : Nat) (has_cb : Bool)
    (cpl : NvmeCpl) (now : Nat) :
    (nvme_send_cmd_raw_entry now0 opcode nsid c10 c11 c12 c13 c14 c15
        has_cb).buf = none ∧
    (nvme_send_cmd_raw_entry now0 opcode nsid c10 c11 c12 c13 c14 c15
        has_cb).lba = 0 ∧
    (nvme_send_cmd_raw_entry now0 opcode nsid c10 c11 c12 c13 c14 c15
        has_cb).lba_count = 0 ∧
    (nvme_send_cmd_raw_entry now0 opcode nsid c10 c11 c12 c13 c14 c15
        has_cb).lba_size = 0 ∧
    (cmd_log_add_cpl_cb crc32c oracle
        (nvme_send_cmd_raw_entry now0 opcode nsid c10 c11 c12 c13 c14 c15
          has_cb) cpl now).1.cpl
      = { cpl with dw2 := cmd_latency_us now0 now } ∧
    (cmd_log_add_cpl_cb crc32c oracle
        (nvme_send_cmd_raw_entry now0 opcode nsid c10 c11 c12 c13 c14 c15
          has_cb) cpl now).2
      = (if has_cb = true then
          some { cpl with dw2 := cmd_latency_us now0 now }
        else none) := by
  refine ⟨rfl, rfl, rfl, rfl, ?_, ?_⟩ <;>
    by_cases hop : opcode = 2 <;>
      simp [cmd_log_add_cpl_cb, nvme_send_cmd_raw_entry, cmd_log_add_cmd,
        hop]

theorem writeU64_length (b : Block) (off v : Nat) (h : off + 8 ≤ b.length) :
    (writeU64 b off v).length = b.length := by
  unfold writeU64
  rw [writeBytes_length b _ off (by rw [leBytes_length]; omega)]

theorem writeU64_getD_lt (b : Block) (off v j d : Nat) (hj : j < off)
    (hoff : off ≤ b.length) :
    (writeU64 b off v).getD j d = b.getD j d :=
  writeBytes_getD_lt b _ off j d hj hoff

theorem writeU64_getD_ge (b : Block) (off v j d : Nat) (hj : off + 8 ≤ j)
    (hoff : off + 8 ≤ b.length) :
    (writeU64 b off v).getD j d = b.getD j d := by
  unfold writeU64
  rw [writeBytes_getD_ge b _ off j d] <;> rw [leBytes_length] <;> omega

theorem getD_mem_of_lt (l : List Block) (i : Nat) (h : i < l.length) :
    l.getD i [] ∈ l := by
  rw [List.getD_eq_getElem?_getD, List.getElem?_eq_getElem h]
  simp only [Option.getD_some]
  exact List.getElem_mem h

/-- Claim C2 (counterexample): a two-block write starting at LBA 5 does
not put the starting LBA into every block — block 1's first eight bytes
read back as 6 (its own LBA), not 5. -/
theorem write_payload_starting_lba_refuted :
    readU64 ((ns_cmd_read_write wcrc false
        [List.replicate 16 0, List.replicate 16 0] 5 16 0 woracle 0 100
        true).buf.getD 1 []) 0 = 6 ∧
    ¬ readU64 ((ns_cmd_read_write wcrc false
        [List.replicate 16 0, List.replicate 16 0] 5 16 0 woracle 0 100
        true).buf.getD 1 []) 0 = 5 := by
  constructor <;> decide

/-- Claim C2 (amended): for a write of `lba_count` blocks starting at
LBA `L` with token base `T` (the shared counter value taken by the
fetch-add), block `i` gets its own LBA `L+i` (as a 64-bit value) in its
first 8 bytes — not the starting LBA — and `T+i` in its last 8 bytes,
all other bytes kept from the caller's buffer; the oracle slot of `L+i`
receives the clamped CRC32C of the full filled block; the counter
advances by `lba_count`; and every one of these stores appears in the
trace before the single submission of the Write (opcode 1). -/
theorem write_payload_per_block (crc32c : Block → Nat) (buf : List Block)
    (lba lba_size io_flags : Nat) (oracle : Nat → Nat) (ctr now : Nat)
    (has_cb : Bool) (hsize : 16 ≤ lba_size) (hmod : lba_size % 8 = 0)
    (hlen : ∀ blk ∈ buf, blk.length = lba_size) :
    (∀ i, i < buf.length →
      readU64 ((ns_cmd_read_write crc32c false buf lba lba_size io_flags
          oracle ctr now has_cb).buf.getD i []) 0 = (lba + i) % U64 ∧
      readU64 ((ns_cmd_read_write crc32c false buf lba lba_size io_flags
          oracle ctr now has_cb).buf.getD i []) (lba_size - 8)
        = (ctr + i) % U64 ∧
      (∀ j, 8 ≤ j → j < lba_size - 8 →
        ((ns_cmd_read_write crc32c false buf lba lba_size io_flags oracle
            ctr now has_cb).buf.getD i []).getD j 0
          = (buf.getD i []).getD j 0) ∧
      (ns_cmd_read_write crc32c false buf lba lba_size io_flags oracle ctr
          now has_cb).oracle (lba + i)
        = buffer_calc_csum crc32c
            ((ns_cmd_read_write crc32c false buf lba lba_size io_flags
              oracle ctr now has_cb).buf.getD i [])) ∧
    (ns_cmd_read_write crc32c false buf lba lba_size io_flags oracle ctr
        now has_cb).ctr = (ctr + buf.length) % U64 ∧
    (ns_cmd_read_write crc32c false buf lba lba_size io_flags oracle ctr
        now has_cb).cmd.opc = 1 ∧
    (ns_cmd_read_write crc32c false buf lba lba_size io_flags oracle ctr
        now has_cb).trace
      = (buffer_fill_data crc32c buf lba lba_size oracle ctr).trace
          ++ [IoEvent.submit 1 lba buf.length] ∧
    (∀ e ∈ (buffer_fill_data crc32c buf lba lba_size oracle ctr).trace,
      (∃ l b, e = IoEvent.blockWrite l b) ∨
        (∃ l v, e = IoEvent.oracleWrite l v)) := by
  have hoff : 8 * (lba_size / 8 - 1) = lba_size - 8 := by omega
  refine ⟨?_, rfl, rfl, rfl,
    buffer_fill_go_trace crc32c buf oracle lba ctr lba_size⟩
  intro i hi
  have hblen : (buf.getD i []).length = lba_size :=
    hlen _ (getD_mem_of_lt buf i hi)
  have h1 : (ns_cmd_read_write crc32c false buf lba lba_size io_flags
      oracle ctr now has_cb).buf.getD i []
        = fill_block (buf.getD i []) (lba + i) (ctr + i) lba_size :=
    buffer_fill_go_getD crc32c buf oracle lba ctr lba_size i hi
  have hb1len : (writeU64 (buf.getD i []) 0 (lba + i)).length = lba_size := by
    rw [writeU64_length _ _ _ (by omega), hblen]
  rw [h1]
  unfold fill_block
  rw [hoff]
  refine ⟨?_, ?_, ?_, ?_⟩
  · rw [readU64_writeU64_before _ 0 (lba_size - 8) _ (by omega)
      (by rw [hb1len]; omega)]
    exact readU64_writeU64_self _ 0 _ (by omega)
  · exact readU64_writeU64_self _ (lba_size - 8) _ (by rw [hb1len]; omega)
  · intro j hj8 hjhi
    rw [writeU64_getD_lt _ (lba_size - 8) _ j 0 hjhi (by rw [hb1len]; omega),
      writeU64_getD_ge _ 0 _ j 0 (by omega) (by rw [hblen]; omega)]
  · have := buffer_fill_go_oracle_at crc32c buf oracle lba ctr lba_size i hi
    unfold fill_block at this
    rw [hoff] at this
    exact this

/-- Claim C2 (witness for the amended theorem): in the two-block write at
LBA 5 with token base 0, block 1 carries LBA 6 up front and token 1 at
its tail, and the oracle slot of LBA 6 holds the filled block's clamped
checksum. -/
theorem write_payload_per_block_witness :
    readU64 ((ns_cmd_read_write wcrc false
        [List.replicate 16 0, List.replicate 16 0] 5 16 0 woracle 0 100
        true).buf.getD 1 []) 0 = (5 + 1) % U64 ∧
    readU64 ((ns_cmd_read_write wcrc false
        [List.replicate 16 0, List.replicate 16 0] 5 16 0 woracle 0 100
        true).buf.getD 1 []) (16 - 8) = (0 + 1) % U64 ∧
    (ns_cmd_read_write wcrc false
        [List.replicate 16 0, List.replicate 16 0] 5 16 0 woracle 0 100
        true).oracle (5 + 1)
      = buffer_calc_csum wcrc ((ns_cmd_read_write wcrc false
          [List.replicate 16 0, List.replicate 16 0] 5 16 0 woracle 0 100
          true).buf.getD 1 []) := by
  have h := (write_payload_per_block wcrc
    [List.replicate 16 0, List.replicate 16 0] 5 16 0 woracle 0 100 true
    (by norm_num) (by norm_num) (by intro blk hblk; fin_cases hblk <;> rfl)).1
    1 (by norm_num)
  exact ⟨h.1, h.2.1, h.2.2.2⟩

/-- Claim C6 (confirmed): the checksum stored for a written block is the
block's CRC32C mapped by `0 → 1` and `0xffffffff → 0xfffffffe` (all
other values unchanged), hence always in `[1, 0xfffffffe]`; consequently
no oracle slot written by `buffer_fill_data` ever carries the unmapped
or uncorrectable sentinel. -/
theorem csum_clamp_range (crc32c : Block → Nat)
    (hcrc : ∀ b, crc32c b < U32) :
    (∀ blk, buffer_calc_csum crc32c blk
        = (if crc32c blk = 0 then 1
           else if crc32c blk = 0xffffffff then 0xfffffffe
           else crc32c blk) ∧
      1 ≤ buffer_calc_csum crc32c blk ∧
      buffer_calc_csum crc32c blk ≤ 0xfffffffe) ∧
    (∀ (buf : List Block) (lba lba_size : Nat) (oracle : Nat → Nat)
        (ctr i : Nat), i < buf.length →
      (buffer_fill_data crc32c buf lba lba_size oracle ctr).oracle
          (lba + i) ≠ 0 ∧
      (buffer_fill_data crc32c buf lba lba_size oracle ctr).oracle
          (lba + i) ≠ 0xffffffff) := by
  have hU32 : U32 = 4294967296 := by norm_num [U32]
  have heq : ∀ blk, buffer_calc_csum crc32c blk
      = (if crc32c blk = 0 then 1
         else if crc32c blk = 0xffffffff then 0xfffffffe
         else crc32c blk) := by
    intro blk
    unfold buffer_calc_csum
    by_cases h0 : crc32c blk = 0
    · simp [h0]
    · by_cases hf : crc32c blk = 0xffffffff
      · simp [h0, hf]
      · simp [h0, hf]
  have hmain : ∀ blk, buffer_calc_csum crc32c blk
      = (if crc32c blk = 0 then 1
         else if crc32c blk = 0xffffffff then 0xfffffffe
         else crc32c blk) ∧
      1 ≤ buffer_calc_csum crc32c blk ∧
      buffer_calc_csum crc32c blk ≤ 0xfffffffe := by
    intro blk
    have h := hcrc blk
    rw [hU32] at h
    refine ⟨heq blk, ?_, ?_⟩ <;> rw [heq blk] <;> split_ifs <;> omega
  refine ⟨hmain, ?_⟩
  intro buf lba lba_size oracle ctr i hi
  have hval := buffer_fill_go_oracle_at crc32c buf oracle lba ctr lba_size i hi
  rw [show (buffer_fill_data crc32c buf lba lba_size oracle ctr).oracle
      = (buffer_fill_go crc32c oracle buf lba ctr lba_size).2.1 from rfl,
    hval]
  have h2 := hmain (fill_block (buf.getD i []) (lba + i) (ctr + i) lba_size)
  omega

/-- Claim C6 (witness): the toy CRC (constantly 5, in `uint32_t` range)
gives a stored checksum of 5, inside `[1, 0xfffffffe]`. -/
theorem csum_clamp_range_witness :
    buffer_calc_csum wcrc (List.replicate 16 0) = 5 ∧
    1 ≤ buffer_calc_csum wcrc (List.replicate 16 0) ∧
    buffer_calc_csum wcrc (List.replicate 16 0) ≤ 0xfffffffe := by
  have h := (csum_clamp_range wcrc
    (fun b => by norm_num [wcrc, U32])).1 (List.replicate 16 0)
  exact ⟨by rw [h.1]; decide, h.2.1, h.2.2⟩

/-- The token bases handed out by a sequence of write submissions, each
performing the single fetch-add of `buffer_fill_data` on the shared
counter (each list element is one write's buffer and starting LBA, in
submission order). -/
def write_token_bases (crc32c : Block → Nat) (lba_size : Nat) :
    List (List Block × Nat) → (Nat → Nat) → Nat → List Nat
  | [], _, _ => []
  | w :: rest, oracle, ctr =>
    let r := buffer_fill_data crc32c w.1 w.2 lba_size oracle ctr
    r.token_base :: write_token_bases crc32c lba_size rest r.oracle r.ctr

theorem sum_take_mono (cs : List Nat) (a b : Nat) (hab : a ≤ b) :
    (cs.take a).sum ≤ (cs.take b).sum := by
  induction b with
  | zero =>
    have h0 : a = 0 := by omega
    subst h0
    exact le_refl _
  | succ n ihb =>
    rcases Nat.eq_or_lt_of_le hab with h | h
    · subst h
      exact le_refl _
    · have ha : a ≤ n := by omega
      refine (ihb ha).trans ?_
      by_cases hn : n < cs.length
      · rw [List.sum_take_succ cs n hn]
        omega
      · rw [List.take_of_length_le (by omega),
          List.take_of_length_le (by omega)]

theorem write_token_bases_closed (crc32c : Block → Nat) (lba_size : Nat) :
    ∀ (ws : List (List Block × Nat)) (oracle : Nat → Nat) (ctr : Nat),
      ctr + ((ws.map fun w => w.1.length).sum) < U64 →
      ∀ j, j < ws.length →
        (write_token_bases crc32c lba_size ws oracle ctr).getD j 0
          = ctr + (((ws.map fun w => w.1.length).take j).sum) := by
  intro ws
  induction ws with
  | nil =>
    intro oracle ctr h j hj
    simp at hj
  | cons w rest ih =>
    intro oracle ctr h j hj
    simp only [List.map_cons, List.sum_cons] at h
    cases j with
    | zero => simp [write_token_bases, buffer_fill_data]
    | succ k =>
      have hk : k < rest.length := by
        simp only [List.length_cons] at hj; omega
      have hctr : (ctr + w.1.length) % U64 = ctr + w.1.length :=
        Nat.mod_eq_of_lt (by omega)
      simp only [write_token_bases, List.getD_cons_succ]
      rw [show (buffer_fill_data crc32c w.1 w.2 lba_size oracle ctr).ctr
          = (ctr + w.1.length) % U64 from rfl, hctr,
        ih _ (ctr + w.1.length) (by omega) k hk]
      simp only [List.map_cons, List.take_succ_cons, List.sum_cons]
      omega

/-- Claim C7 (confirmed): each write reserves its tokens with a single
fetch-add of `lba_count` on the shared 64-bit counter, and as long as the
counter does not wrap, the reserved ranges are disjoint and ordered:
write `j`'s base is at least write `i`'s base plus write `i`'s block
count for `i < j`, so every token `base_i + k` stamped by the earlier
write is strictly below every token `base_j + m` of the later one. -/
theorem token_fetch_add_monotonic (crc32c : Block → Nat) (lba_size : Nat)
    (ws : List (List Block × Nat)) (oracle : Nat → Nat) (ctr : Nat)
    (hw : ctr + ((ws.map fun w => w.1.length).sum) < U64)
    (i j : Nat) (hij : i < j) (hj : j < ws.length) (k m : Nat)
    (hk : k < (ws.getD i ([], 0)).1.length)
    (_hm : m < (ws.getD j ([], 0)).1.length) :
    (∀ (buf : List Block) (lba : Nat) (orc : Nat → Nat) (c : Nat),
      (buffer_fill_data crc32c buf lba lba_size orc c).token_base = c ∧
      (buffer_fill_data crc32c buf lba lba_size orc c).ctr
        = (c + buf.length) % U64) ∧
    (write_token_bases crc32c lba_size ws oracle ctr).getD i 0
        + (ws.getD i ([], 0)).1.length
      ≤ (write_token_bases crc32c lba_size ws oracle ctr).getD j 0 ∧
    (write_token_bases crc32c lba_size ws oracle ctr).getD i 0 + k
      < (write_token_bases crc32c lba_size ws oracle ctr).getD j 0 + m := by
  refine ⟨fun buf lba orc c => ⟨rfl, rfl⟩, ?_⟩
  have hi : i < ws.length := by omega
  have hcs : i < (ws.map fun w => w.1.length).length := by
    simp only [List.length_map]; omega
  have hgi : (ws.map fun w => w.1.length)[i] = (ws.getD i ([], 0)).1.length := by
    rw [List.getElem_map, List.getD_eq_getElem?_getD,
      List.getElem?_eq_getElem hi]
    rfl
  rw [write_token_bases_closed crc32c lba_size ws oracle ctr hw i hi,
    write_token_bases_closed crc32c lba_size ws oracle ctr hw j hj]
  have h1 : ((ws.map fun w => w.1.length).take i).sum
        + (ws.getD i ([], 0)).1.length
      = ((ws.map fun w => w.1.length).take (i + 1)).sum := by
    rw [List.sum_take_succ _ i hcs, hgi]
  have h2 : ((ws.map fun w => w.1.length).take (i + 1)).sum
      ≤ ((ws.map fun w => w.1.length).take j).sum :=
    sum_take_mono _ (i + 1) j (by omega)
  omega

/-- Claim C7 (witness): two consecutive single-block writes at counter 0
reserve bases 0 and 1, and the unique token of the first is below the
unique token of the second. -/
theorem token_fetch_add_monotonic_witness :
    (write_token_bases wcrc 16
        [([List.replicate 16 0], 5), ([List.replicate 16 0], 9)]
        woracle 0).getD 0 0 + 0
      < (write_token_bases wcrc 16
          [([List.replicate 16 0], 5), ([List.replicate 16 0], 9)]
          woracle 0).getD 1 0 + 0 :=
  (token_fetch_add_monotonic wcrc 16
    [([List.replicate 16 0], 5), ([List.replicate 16 0], 9)] woracle 0
    (by decide) 0 1 (by decide) (by decide) 0 0 (by decide)
    (by decide)).2.2

end Pynvme
